import Mathlib

set_option maxRecDepth 8000

namespace CsrKpi

/-! Shallow embedding of the numeric-extraction and aggregation core of the
CSR KPI dashboard repository (the files quant_scoring_reckoner.py and
test1.py).  Python floats are modeled as exact rationals extended with the
IEEE special values inf, -inf and nan; binary rounding of finite values is
not observable in any of the verified claims, while overflow of float() on
a decimal literal to infinity is modeled exactly at the IEEE-754
round-to-nearest-even overflow threshold 2^1024 - 2^970. -/

/-- A Python float: an exact finite rational, or one of the IEEE special
values.  Python's float() of a decimal string never produces nan. -/
inductive PyFloat where
  | finite (q : ℚ)
  | inf
  | ninf
  | nan
deriving DecidableEq, Repr

/-- Python float addition, with IEEE special-value rules. -/
def pyAdd : PyFloat → PyFloat → PyFloat
  | .nan, _ => .nan
  | _, .nan => .nan
  | .inf, .ninf => .nan
  | .ninf, .inf => .nan
  | .inf, _ => .inf
  | _, .inf => .inf
  | .ninf, _ => .ninf
  | _, .ninf => .ninf
  | .finite a, .finite b => .finite (a + b)

/-- Python float multiplication, with IEEE special-value rules. -/
def pyMul : PyFloat → PyFloat → PyFloat
  | .nan, _ => .nan
  | _, .nan => .nan
  | .finite a, .finite b => .finite (a * b)
  | .inf, .inf => .inf
  | .inf, .ninf => .ninf
  | .ninf, .inf => .ninf
  | .ninf, .ninf => .inf
  | .inf, .finite b => if b = 0 then .nan else if 0 < b then .inf else .ninf
  | .finite a, .inf => if a = 0 then .nan else if 0 < a then .inf else .ninf
  | .ninf, .finite b => if b = 0 then .nan else if 0 < b then .ninf else .inf
  | .finite a, .ninf => if a = 0 then .nan else if 0 < a then .ninf else .inf

/-- Value of Python float division for a nonzero denominator (the zero
denominator case, which raises ZeroDivisionError, is handled by pyDivE). -/
def pyDivVal : PyFloat → PyFloat → PyFloat
  | .nan, _ => .nan
  | _, .nan => .nan
  | .finite a, .finite b => if b = 0 then .nan else .finite (a / b)
  | .inf, .inf => .nan
  | .inf, .ninf => .nan
  | .ninf, .inf => .nan
  | .ninf, .ninf => .nan
  | .finite _, .inf => .finite 0
  | .finite _, .ninf => .finite 0
  | .inf, .finite b => if 0 ≤ b then .inf else .ninf
  | .ninf, .finite b => if 0 ≤ b then .ninf else .inf

/-- Python float division: none models a ZeroDivisionError. -/
def pyDivE (a b : PyFloat) : Option PyFloat :=
  if b = .finite 0 then none else some (pyDivVal a b)

/-- Python truthiness of a float: only 0.0 is falsy (nan and the infinities
are truthy). -/
def pyTruthy : PyFloat → Bool
  | .finite q => q != 0
  | _ => true

/-- The expression (x or 0.0) from test1.py: returns x when x is truthy,
otherwise 0.0.  Note that nan is truthy, so this does not replace nan. -/
def pyOr0 (x : PyFloat) : PyFloat :=
  if pyTruthy x then x else .finite 0

/-- Left fold of pyAdd starting at 0.0: pandas Series.sum over the listed
values. -/
def pySum (l : List PyFloat) : PyFloat :=
  l.foldl pyAdd (.finite 0)

/-- A cell of a derived numeric column: none models a pandas missing value
(None / pd.NA).  pandas na-handling (dropna, fillna, skipna) also treats a
stored nan as missing, so notNA drops both none and nan. -/
def notNA : Option PyFloat → Option PyFloat
  | none => none
  | some .nan => none
  | some v => some v

/-- pandas fillna(0) on a single cell. -/
def pyFillna0 : Option PyFloat → PyFloat
  | none => .finite 0
  | some .nan => .finite 0
  | some v => v

/-- pandas Series.mean over the already na-dropped values: the mean of an
empty selection is nan. -/
def pyMeanList (l : List PyFloat) : PyFloat :=
  match l with
  | [] => .nan
  | _ => pyDivVal (pySum l) (.finite (l.length : ℚ))

/-- pandas Series.sum with skipna over a column of optional cells. -/
def pySumCol (l : List (Option PyFloat)) : PyFloat :=
  pySum (l.filterMap notNA)

/-- pandas Series.mean with skipna over a column of optional cells. -/
def pyMeanCol (l : List (Option PyFloat)) : PyFloat :=
  pyMeanList (l.filterMap notNA)

/-- Round-half-to-even of a rational to an integer, as Python's round(). -/
def rhe (q : ℚ) : Int :=
  let f := q.floor
  let r := q - (f : ℚ)
  if r < 1/2 then f
  else if 1/2 < r then f + 1
  else if f % 2 = 0 then f else f + 1

/-- Python round(x, 2).  round(nan, 2) is nan and round(inf, 2) is inf:
no exception is raised for the special values. -/
def pyRound2 : PyFloat → PyFloat
  | .finite q => .finite ((rhe (q * 100) : ℚ) / 100)
  | v => v

/-- Python round(x) with no ndigits, producing an int; round(nan) and
round(inf) raise (ValueError / OverflowError), modeled as none. -/
def pyRoundInt : PyFloat → Option Int
  | .finite q => some (rhe q)
  | _ => none

/-- Truncation of a rational toward zero, as Python's int() on a float. -/
def ratTrunc (q : ℚ) : Int :=
  q.num / (q.den : Int)

/-- Python int(x) on a float; int(nan) and int(inf) raise, modeled as
none. -/
def pyInt : PyFloat → Option Int
  | .finite q => some (ratTrunc q)
  | _ => none

/-! ### The numeric cell extractor (extract_number_keep_none)

The regular expression in the source is
  -?\d{1,3}(?:,\d{3})*(?:\.\d+)?|-?\d+\.\d+|-?\d+
scanned with re.findall: at each position the three alternatives are tried
in order, each greedily; on success the scan resumes after the match, on
failure it advances one character.  The scanner below implements exactly
this. -/

/-- Decimal digit test (ASCII 48..57), the \d of the pattern. -/
def isDig (c : Char) : Bool :=
  48 ≤ c.toNat && c.toNat ≤ 57

/-- Numeric value of a digit character. -/
def dVal (c : Char) : ℕ :=
  c.toNat - 48

/-- Whitespace removed by Python's str.strip() (ASCII whitespace). -/
def isPySpace (c : Char) : Bool :=
  c = ' ' || c = '\t' || c = '\n' || c = '\r' || c = '\x0b' || c = '\x0c'

/-- Python str.strip(): drop leading and trailing whitespace. -/
def pyStrip (l : List Char) : List Char :=
  ((l.dropWhile isPySpace).reverse.dropWhile isPySpace).reverse

/-- Greedily take at most n characters satisfying p (the \d{1,3} piece
with n = 3), returning the taken prefix and the remainder. -/
def takeUpTo (n : ℕ) (p : Char → Bool) : List Char → List Char × List Char
  | [] => ([], [])
  | c :: cs =>
    match n with
    | 0 => ([], c :: cs)
    | m + 1 =>
      if p c then
        let r := takeUpTo m p cs
        (c :: r.1, r.2)
      else ([], c :: cs)

/-- Greedy (?:,\d{3})*: repeatedly consume a comma followed by exactly
three digits. -/
def commaGroups (l : List Char) : List Char × List Char :=
  match l with
  | c :: a :: b :: d :: rest =>
    if c = ',' ∧ isDig a = true ∧ isDig b = true ∧ isDig d = true then
      let r := commaGroups rest
      (c :: a :: b :: d :: r.1, r.2)
    else ([], c :: a :: b :: d :: rest)
  | l => ([], l)

/-- Optional greedy (?:\.\d+)?: a dot followed by at least one digit. -/
def fracPart (l : List Char) : List Char × List Char :=
  match l with
  | c :: d :: rest =>
    if c = '.' ∧ isDig d = true then
      (c :: d :: rest.takeWhile isDig, rest.dropWhile isDig)
    else ([], c :: d :: rest)
  | l => ([], l)

/-- First alternative without the sign: \d{1,3}(?:,\d{3})*(?:\.\d+)?. -/
def branch1core (l : List Char) : Option (List Char × List Char) :=
  match l with
  | c :: _ =>
    if isDig c then
      let p1 := takeUpTo 3 isDig l
      let p2 := commaGroups p1.2
      let p3 := fracPart p2.2
      some (p1.1 ++ p2.1 ++ p3.1, p3.2)
    else none
  | [] => none

/-- Second alternative without the sign: \d+\.\d+. -/
def branch2core (l : List Char) : Option (List Char × List Char) :=
  match l.takeWhile isDig with
  | [] => none
  | ip =>
    match l.dropWhile isDig with
    | '.' :: c :: rest =>
      if isDig c then
        some (ip ++ '.' :: c :: rest.takeWhile isDig, rest.dropWhile isDig)
      else none
    | _ => none

/-- Third alternative without the sign: \d+. -/
def branch3core (l : List Char) : Option (List Char × List Char) :=
  match l.takeWhile isDig with
  | [] => none
  | ip => some (ip, l.dropWhile isDig)

/-- The optional leading minus (-?) of each alternative.  A minus is kept
only when the rest of the alternative matches after it; backtracking to a
zero-width minus cannot help, because every alternative then requires a
digit where the minus stands. -/
def withSign (core : List Char → Option (List Char × List Char))
    (l : List Char) : Option (List Char × List Char) :=
  match l with
  | c :: rest =>
    if c = '-' then (core rest).map (fun p => (c :: p.1, p.2))
    else core (c :: rest)
  | [] => core []

/-- One attempt of the full alternation at the current position. -/
def matchAt (l : List Char) : Option (List Char × List Char) :=
  match withSign branch1core l with
  | some r => some r
  | none =>
    match withSign branch2core l with
    | some r => some r
    | none => withSign branch3core l

/-- re.findall of the pattern: fuel-indexed scan; every successful match
consumes at least one character, so fuel equal to the length of the input
realizes the unbounded scan. -/
def findallAux : ℕ → List Char → List (List Char)
  | 0, _ => []
  | _ + 1, [] => []
  | n + 1, c :: cs =>
    match matchAt (c :: cs) with
    | some (tok, rest) => tok :: findallAux n rest
    | none => findallAux n cs

/-- re.findall of the numeric-token pattern over a character list. -/
def findall (l : List Char) : List (List Char) :=
  findallAux l.length l

/-- Value of a digit string, most significant digit first. -/
def intValN : List Char → ℕ
  | [] => 0
  | c :: cs => dVal c * 10 ^ cs.length + intValN cs

/-- Exact decimal value of an unsigned float literal (digits, optionally
followed by a dot and fraction digits), as parsed by Python's float(). -/
def parseUnsigned (cs : List Char) : ℚ :=
  let ip := cs.takeWhile isDig
  match cs.dropWhile isDig with
  | '.' :: fs => (intValN ip : ℚ) + (intValN fs : ℚ) / ((10 ^ fs.length : ℕ) : ℚ)
  | _ => (intValN ip : ℚ)

/-- Exact decimal value of a possibly signed float literal. -/
def parseTok (cs : List Char) : ℚ :=
  match cs with
  | c :: rest => if c = '-' then -(parseUnsigned rest) else parseUnsigned (c :: rest)
  | [] => parseUnsigned []

/-- Smallest decimal magnitude at which float() of a decimal literal
overflows to infinity under IEEE-754 round-to-nearest-even. -/
def ovfThreshold : ℚ :=
  ((2 ^ 1024 - 2 ^ 970 : ℕ) : ℚ)

/-- Python's float() on the exact value of a decimal literal: an infinity
beyond the overflow threshold, else the (finite) value itself. -/
def floatLit (v : ℚ) : PyFloat :=
  if ovfThreshold ≤ v then .inf
  else if v ≤ -ovfThreshold then .ninf
  else .finite v

/-- float(token.replace(",", "")) for a token matched by the pattern.
Such a token is always a valid float literal after the commas are removed,
so float() never raises ValueError on it (the except branch of the source
is unreachable); on overflow float() returns an infinity rather than
raising. -/
def pyFloatOfTok (tok : List Char) : PyFloat :=
  floatLit (parseTok (tok.filter (fun c => c ≠ ',')))

/-- A raw spreadsheet cell as seen by extract_number_keep_none: a missing
value (anything with pd.isna true), an integer-valued numeric cell, or a
string cell. -/
inductive RawCell where
  | na
  | intCell (n : Int)
  | strCell (s : String)
deriving DecidableEq, Repr

/-- Decimal digits of a positive natural number, most significant first
(fuel-indexed; fuel n + 1 suffices for n). -/
def natDigits : ℕ → ℕ → List Char
  | 0, _ => []
  | f + 1, n =>
    if n = 0 then []
    else natDigits f (n / 10) ++ [Char.ofNat (48 + n % 10)]

/-- Python str() of an integer. -/
def strOfInt : Int → List Char
  | .ofNat n => if n = 0 then ['0'] else natDigits (n + 1) n
  | .negSucc m => '-' :: natDigits (m + 2) (m + 1)

/-- extract_number_keep_none on the textual representation of a cell:
strip, findall, take the last token, parse it. -/
def extractStr (s : String) : Option PyFloat :=
  let cs := pyStrip s.data
  match (findall cs).getLast? with
  | none => none
  | some tok => some (pyFloatOfTok tok)

/-- extract_number_keep_none (identical in both source files): None for a
missing cell, otherwise the last numeric token of str(obj).strip(), parsed
as a float; None when no token occurs. -/
def extract (c : RawCell) : Option PyFloat :=
  match c with
  | .na => none
  | .intCell n => extractStr ⟨strOfInt n⟩
  | .strCell s => extractStr s

/-! ### clean_excel: derivation of the four numeric columns -/

/-- A raw table: named columns of raw cells (all of equal length). -/
def Table : Type :=
  List (String × List RawCell)

/-- Column lookup by name. -/
def lookupCol (t : Table) (c : String) : Option (List RawCell) :=
  (t.find? (fun p => p.1 == c)).map (fun p => p.2)

/-- Number of rows of a table (length of its first column). -/
def nrows (t : Table) : ℕ :=
  match t with
  | [] => 0
  | (_, col) :: _ => col.length

/-- The four numeric columns required by the aggregation. -/
def requiredCols : List String :=
  ["score_1_response", "score_2_response", "score_1_average", "score_2_average"]

/-- Derived _num column in quant_scoring_reckoner.py's clean_excel: the
extracted values when the source column exists, else the constant 0
(df[col + "_num"] = 0). -/
def numColQ (t : Table) (c : String) : List (Option PyFloat) :=
  match lookupCol t c with
  | some cells => cells.map extract
  | none => List.replicate (nrows t) (some (.finite 0))

/-- Derived _num column in test1.py's clean_excel: the extracted values
when the source column exists, else the constant missing marker
(df[c + "_num"] = pd.NA). -/
def numColT (t : Table) (c : String) : List (Option PyFloat) :=
  match lookupCol t c with
  | some cells => cells.map extract
  | none => List.replicate (nrows t) none

/-- project_code normalization of clean_excel:
astype(str).str.strip().str.upper() (ASCII model; str(nan) is "nan",
uppercased to "NAN"). -/
def normProj (c : RawCell) : String :=
  match c with
  | .na => "NAN"
  | .intCell n => ⟨strOfInt n⟩
  | .strCell s => ⟨(pyStrip s.data).map Char.toUpper⟩

/-- One row of the cleaned table restricted to the fields the aggregators
read: the normalized grouping key and the four derived numeric cells. -/
structure SRow where
  project_code : String
  s1resp : Option PyFloat
  s2resp : Option PyFloat
  s1avg : Option PyFloat
  s2avg : Option PyFloat
deriving DecidableEq, Repr

/-- Row-align the grouping column and the four derived columns. -/
def zipRows : List String → List (Option PyFloat) → List (Option PyFloat) →
    List (Option PyFloat) → List (Option PyFloat) → List SRow
  | p :: ps, a :: la, b :: lb, c :: lc, d :: ld =>
    ⟨p, a, b, c, d⟩ :: zipRows ps la lb lc ld
  | _, _, _, _, _ => []

/-- Assemble the cleaned rows from a raw table using the given derived-
column policy (numColQ or numColT). -/
def buildRowsWith (numCol : Table → String → List (Option PyFloat))
    (t : Table) : List SRow :=
  match lookupCol t "project_code" with
  | none => []
  | some pcol =>
    zipRows (pcol.map normProj)
      (numCol t "score_1_response") (numCol t "score_2_response")
      (numCol t "score_1_average") (numCol t "score_2_average")

/-! ### excel_style_calculations (quant_scoring_reckoner.py) -/

/-- s1r = df["score_1_response_num"].sum() -/
def qS1r (df : List SRow) : PyFloat :=
  pySumCol (df.map (fun r => r.s1resp))

/-- s2r = df["score_2_response_num"].sum() -/
def qS2r (df : List SRow) : PyFloat :=
  pySumCol (df.map (fun r => r.s2resp))

/-- a1 = df["score_1_average_num"].mean() -/
def qA1 (df : List SRow) : PyFloat :=
  pyMeanCol (df.map (fun r => r.s1avg))

/-- a2 = df["score_2_average_num"].mean() -/
def qA2 (df : List SRow) : PyFloat :=
  pyMeanCol (df.map (fun r => r.s2avg))

/-- s1w = a1 * s1r -/
def qS1w (df : List SRow) : PyFloat :=
  pyMul (qA1 df) (qS1r df)

/-- s2w = a2 * s2r -/
def qS2w (df : List SRow) : PyFloat :=
  pyMul (qA2 df) (qS2r df)

/-- total_responses = s1r + s2r -/
def qTotResp (df : List SRow) : PyFloat :=
  pyAdd (qS1r df) (qS2r df)

/-- total_weight = s1w + s2w -/
def qTotWeight (df : List SRow) : PyFloat :=
  pyAdd (qS1w df) (qS2w df)

/-- total_score = total_weight / total_responses if total_responses else 0
(none would model a ZeroDivisionError from the division itself). -/
def qTotScore (df : List SRow) : Option PyFloat :=
  if pyTruthy (qTotResp df) then pyDivE (qTotWeight df) (qTotResp df)
  else some (.finite 0)

/-- The dictionary returned by excel_style_calculations. -/
structure QuantResult where
  total_responses : Int
  a1disp : PyFloat
  a2disp : PyFloat
  s1w_disp : Int
  s2w_disp : Int
  total_weight_disp : Int
  total_score_disp : PyFloat
deriving DecidableEq, Repr

/-- Outcome of a Python call: a value, or a raised exception. -/
inductive PyResult (α : Type) where
  | ok (a : α)
  | exn
deriving DecidableEq, Repr

/-- Assembly of the result dictionary of excel_style_calculations; none
models a raised exception (int() or round() applied to nan or to an
infinity). -/
def qBuild (df : List SRow) : Option QuantResult :=
  match qTotScore df, pyInt (qTotResp df), pyRoundInt (qS1w df),
      pyRoundInt (qS2w df), pyRoundInt (qTotWeight df) with
  | some ts, some tr, some w1, some w2, some tw =>
    some ⟨tr, pyRound2 (qA1 df), pyRound2 (qA2 df), w1, w2, tw, pyRound2 ts⟩
  | _, _, _, _, _ => none

/-- excel_style_calculations: None for an empty frame, else the KPI
dictionary; exn models an escaped exception. -/
def excel_style_calculations (df : List SRow) : PyResult (Option QuantResult) :=
  if df.isEmpty then .ok none
  else
    match qBuild df with
    | some r => .ok (some r)
    | none => .exn

/-! ### calculate_project_metrics (test1.py), with filters=None -/

/-- Lexicographic code-point comparison of strings, as Python's sorted. -/
def lexLe : List Char → List Char → Bool
  | [], _ => true
  | _ :: _, [] => false
  | a :: la, b :: lb =>
    if a < b then true
    else if a = b then lexLe la lb
    else false

/-- Insertion into a lexicographically sorted list. -/
def insertStr (s : String) : List String → List String
  | [] => [s]
  | t :: ts => if lexLe s.data t.data then s :: t :: ts else t :: insertStr s ts

/-- Stable sort of strings by code point (Python's sorted). -/
def sortStr (l : List String) : List String :=
  l.foldr insertStr []

/-- unique(): first occurrences in order. -/
def dedupFirst : List String → List String → List String
  | [], _ => []
  | s :: ss, seen =>
    if seen.contains s then dedupFirst ss seen
    else s :: dedupFirst ss (s :: seen)

/-- projects = sorted(df["project_code"].dropna().unique().tolist());
after clean_excel the key column holds strings only, so dropna removes
nothing. -/
def projectsOf (df : List SRow) : List String :=
  sortStr (dedupFirst (df.map (fun r => r.project_code)) [])

/-- dproj = df[df["project_code"] == project].copy() -/
def tGroup (df : List SRow) (p : String) : List SRow :=
  df.filter (fun r => r.project_code == p)

/-- sum_score_1_response = dproj["score_1_response_num"].fillna(0).sum() -/
def tS1r (d : List SRow) : PyFloat :=
  pySum ((d.map (fun r => r.s1resp)).map pyFillna0)

/-- sum_score_2_response = dproj["score_2_response_num"].fillna(0).sum() -/
def tS2r (d : List SRow) : PyFloat :=
  pySum ((d.map (fun r => r.s2resp)).map pyFillna0)

/-- avg_score_1_average = dproj["score_1_average_num"].dropna().mean() -/
def tA1 (d : List SRow) : PyFloat :=
  pyMeanList ((d.map (fun r => r.s1avg)).filterMap notNA)

/-- avg_score_2_average = dproj["score_2_average_num"].dropna().mean() -/
def tA2 (d : List SRow) : PyFloat :=
  pyMeanList ((d.map (fun r => r.s2avg)).filterMap notNA)

/-- score1_averageXsum = (avg_score_1_average or 0.0) * sum_score_1_response -/
def tS1w (d : List SRow) : PyFloat :=
  pyMul (pyOr0 (tA1 d)) (tS1r d)

/-- score2_averageXsum = (avg_score_2_average or 0.0) * sum_score_2_response -/
def tS2w (d : List SRow) : PyFloat :=
  pyMul (pyOr0 (tA2 d)) (tS2r d)

/-- total_responses = sum_score_1_response + sum_score_2_response -/
def tTotResp (d : List SRow) : PyFloat :=
  pyAdd (tS1r d) (tS2r d)

/-- total_weight = score1_averageXsum + score2_averageXsum -/
def tTotWeight (d : List SRow) : PyFloat :=
  pyAdd (tS1w d) (tS2w d)

/-- total_score = total_weight / total_responses if total_responses else 0.0 -/
def tTotScore (d : List SRow) : Option PyFloat :=
  if pyTruthy (tTotResp d) then pyDivE (tTotWeight d) (tTotResp d)
  else some (.finite 0)

/-- One result row of calculate_project_metrics. -/
structure TRow where
  project_code : String
  row_count : ℕ
  total_responses : Int
  a1disp : PyFloat
  a2disp : PyFloat
  s1w_disp : Int
  s2w_disp : Int
  total_weight_disp : Int
  total_score_disp : PyFloat
deriving DecidableEq, Repr

/-- The result dictionary appended for one project; none models a raised
exception (int() or round() applied to nan or to an infinity). -/
def tRow (p : String) (d : List SRow) : Option TRow :=
  match tTotScore d, pyInt (tTotResp d), pyRoundInt (tS1w d),
      pyRoundInt (tS2w d), pyRoundInt (tTotWeight d) with
  | some ts, some tr, some w1, some w2, some tw =>
    some ⟨p, d.length, tr, pyRound2 (tA1 d), pyRound2 (tA2 d),
      w1, w2, tw, pyRound2 ts⟩
  | _, _, _, _, _ => none

/-- The per-project loop; the first raised exception aborts the call. -/
def tRowsFor (df : List SRow) : List String → Option (List TRow)
  | [] => some []
  | p :: ps =>
    match tRow p (tGroup df p) with
    | none => none
    | some r =>
      match tRowsFor df ps with
      | none => none
      | some rs => some (r :: rs)

/-- calculate_project_metrics with filters=None: an empty frame yields an
empty result table, otherwise one result row per distinct project in
sorted order; exn models an escaped exception. -/
def calculate_project_metrics (df : List SRow) : PyResult (List TRow) :=
  if df.isEmpty then .ok []
  else
    match tRowsFor df (projectsOf df) with
    | some rs => .ok rs
    | none => .exn

/-- State-threaded view of excel_style_calculations: the source performs
no in-place pandas operation on the caller's frame (sum, mean and the
arithmetic only read it), so the call returns the caller's rows unchanged
alongside the result. -/
def excel_style_calculations_state (df : List SRow) :
    List SRow × PyResult (Option QuantResult) :=
  (df, excel_style_calculations df)

/-- State-threaded view of calculate_project_metrics: filtering, copy(),
fillna and dropna all build new objects, so the caller's rows come back
unchanged alongside the result. -/
def calculate_project_metrics_state (df : List SRow) :
    List SRow × PyResult (List TRow) :=
  (df, calculate_project_metrics df)

/-! ### Concrete inputs used by the claims -/

/-- The two-row scenario table of the spec: project "A", score_1_response
"10" and "20", score_1_average "4" and "6", and no score_2 columns in the
schema. -/
def scenarioTable : Table :=
  [("project_code", [.strCell "A", .strCell "A"]),
   ("score_1_response", [.strCell "10", .strCell "20"]),
   ("score_1_average", [.strCell "4", .strCell "6"])]

/-- The scenario rows as cleaned by quant_scoring_reckoner.py (absent
columns filled with 0). -/
def scenarioRowsQ : List SRow :=
  buildRowsWith numColQ scenarioTable

/-- The scenario rows as cleaned by test1.py (absent columns filled with
the missing marker). -/
def scenarioRowsT : List SRow :=
  buildRowsWith numColT scenarioTable

/-- A one-row table whose schema lacks the score_2 columns, used to
exercise the missing-column policy. -/
def missingColTable : Table :=
  [("project_code", [.strCell "A"]),
   ("score_1_response", [.strCell "10"]),
   ("score_1_average", [.strCell "4"])]

/-- A comma-grouped numeric string of 310 digits: the single token
"1,000,...,000" has the value 10^309, beyond the double-overflow
threshold, so Python's float() yields infinity for it. -/
def hugeChars : List Char :=
  '1' :: (List.replicate 103 [',', '0', '0', '0']).flatten

/-- Decimal value of an optional fractional suffix (a dot followed by
digits); 0 when there is none. -/
def fracQ (fs : List Char) : ℚ :=
  match fs with
  | '.' :: gs => (intValN gs : ℚ) / ((10 ^ gs.length : ℕ) : ℚ)
  | _ => 0

/-- The spec-side "number the whole string denotes" for a cell consisting
of integer digits followed by an optional fraction: modeled from the
claim's words, for comparison with what extract returns. -/
def decVal (ds fs : List Char) : ℚ :=
  (intValN ds : ℚ) + fracQ fs

/-- Shape of the optional fractional suffix in claim C10: empty, or a dot
followed by at least one digit. -/
def FracShape (fs : List Char) : Prop :=
  fs = [] ∨ ∃ g gs, fs = '.' :: g :: gs ∧ isDig g = true ∧ ∀ c ∈ gs, isDig c = true

/-- The result excel_style_calculations produces on the scenario rows. -/
def scenarioQuantRes : QuantResult :=
  ⟨30, .finite 5, .finite 0, 150, 0, 150, .finite 5⟩

/-- A single cleaned row with all four numeric fields present, used to
exercise the successful path of the per-project result construction. -/
def fullRow : SRow :=
  ⟨"A", some (.finite 10), some (.finite 2), some (.finite 4), some (.finite 3)⟩

/-- The result row calculate_project_metrics produces for [fullRow]. -/
def fullRowT : TRow :=
  ⟨"A", 1, 12, .finite 4, .finite 3, 40, 6, 46, .finite (383/100)⟩

/-- All display fields of an excel_style_calculations result are the
roundings of the unrounded intermediates, and the intermediates satisfy
the unrounded formulas. -/
def QuantRoundingSpec (df : List SRow) (r : QuantResult) : Prop :=
  r.a1disp = pyRound2 (qA1 df) ∧
  r.a2disp = pyRound2 (qA2 df) ∧
  pyRoundInt (qS1w df) = some r.s1w_disp ∧
  pyRoundInt (qS2w df) = some r.s2w_disp ∧
  pyRoundInt (qTotWeight df) = some r.total_weight_disp ∧
  (∃ ts, qTotScore df = some ts ∧ r.total_score_disp = pyRound2 ts) ∧
  qS1w df = pyMul (qA1 df) (qS1r df) ∧
  qS2w df = pyMul (qA2 df) (qS2r df) ∧
  qTotWeight df = pyAdd (qS1w df) (qS2w df) ∧
  qTotResp df = pyAdd (qS1r df) (qS2r df) ∧
  pyInt (qTotResp df) = some r.total_responses

/-- All display fields of a calculate_project_metrics result row are the
roundings of the unrounded per-group intermediates, and the intermediates
satisfy the unrounded formulas. -/
def TRoundingSpec (d : List SRow) (row : TRow) : Prop :=
  row.a1disp = pyRound2 (tA1 d) ∧
  row.a2disp = pyRound2 (tA2 d) ∧
  pyRoundInt (tS1w d) = some row.s1w_disp ∧
  pyRoundInt (tS2w d) = some row.s2w_disp ∧
  pyRoundInt (tTotWeight d) = some row.total_weight_disp ∧
  (∃ ts, tTotScore d = some ts ∧ row.total_score_disp = pyRound2 ts) ∧
  tS1w d = pyMul (pyOr0 (tA1 d)) (tS1r d) ∧
  tS2w d = pyMul (pyOr0 (tA2 d)) (tS2r d) ∧
  tTotWeight d = pyAdd (tS1w d) (tS2w d) ∧
  tTotResp d = pyAdd (tS1r d) (tS2r d) ∧
  pyInt (tTotResp d) = some row.total_responses ∧
  row.row_count = d.length

/-! ### Helper lemmas -/

theorem guardedDiv_eq (a b : PyFloat) :
    (if pyTruthy b then pyDivE a b else some (.finite 0)) =
      some (if b = .finite 0 then .finite 0 else pyDivVal a b) := by
  cases b with
  | finite q =>
    by_cases hq : q = 0
    · subst hq
      simp [pyTruthy, pyDivE]
    · simp [pyTruthy, pyDivE, hq]
  | inf => simp [pyTruthy, pyDivE]
  | ninf => simp [pyTruthy, pyDivE]
  | nan => simp [pyTruthy, pyDivE]

theorem floatLit_cases (v : ℚ) :
    floatLit v = .inf ∨ floatLit v = .ninf ∨
      floatLit v = .finite v ∧ |v| < ovfThreshold := by
  unfold floatLit
  by_cases h1 : ovfThreshold ≤ v
  · rw [if_pos h1]
    exact Or.inl rfl
  · rw [if_neg h1]
    by_cases h2 : v ≤ -ovfThreshold
    · rw [if_pos h2]
      exact Or.inr (Or.inl rfl)
    · rw [if_neg h2]
      exact Or.inr (Or.inr ⟨rfl, abs_lt.mpr ⟨lt_of_not_le h2, lt_of_not_le h1⟩⟩)

theorem pyFloatOfTok_cases (tok : List Char) :
    pyFloatOfTok tok = .inf ∨ pyFloatOfTok tok = .ninf ∨
      ∃ q, pyFloatOfTok tok = .finite q ∧ |q| < ovfThreshold := by
  unfold pyFloatOfTok
  rcases floatLit_cases (parseTok (tok.filter (fun c => c ≠ ','))) with h | h | ⟨h, hb⟩
  · exact Or.inl h
  · exact Or.inr (Or.inl h)
  · exact Or.inr (Or.inr ⟨_, h, hb⟩)

theorem extractStr_cases (s : String) :
    extractStr s = none ∨ ∃ tok, extractStr s = some (pyFloatOfTok tok) := by
  unfold extractStr
  cases h : (findall (pyStrip s.data)).getLast? with
  | none => exact Or.inl (by simp [h])
  | some tok => exact Or.inr ⟨tok, by simp [h]⟩

theorem extract_cases (c : RawCell) :
    extract c = none ∨ ∃ tok, extract c = some (pyFloatOfTok tok) := by
  cases c with
  | na => exact Or.inl rfl
  | intCell n => exact extractStr_cases _
  | strCell s => exact extractStr_cases s

theorem excel_ok_some (df : List SRow) (r : QuantResult)
    (h : excel_style_calculations df = .ok (some r)) : qBuild df = some r := by
  unfold excel_style_calculations at h
  by_cases he : df.isEmpty
  · rw [if_pos he] at h
    simp at h
  · rw [if_neg he] at h
    cases hq : qBuild df with
    | none =>
      rw [hq] at h
      simp at h
    | some r' =>
      rw [hq] at h
      simp at h
      rw [h]

theorem qBuild_eq (df : List SRow) (r : QuantResult) (h : qBuild df = some r) :
    ∃ ts, qTotScore df = some ts ∧
      pyInt (qTotResp df) = some r.total_responses ∧
      pyRoundInt (qS1w df) = some r.s1w_disp ∧
      pyRoundInt (qS2w df) = some r.s2w_disp ∧
      pyRoundInt (qTotWeight df) = some r.total_weight_disp ∧
      r.a1disp = pyRound2 (qA1 df) ∧ r.a2disp = pyRound2 (qA2 df) ∧
      r.total_score_disp = pyRound2 ts := by
  unfold qBuild at h
  cases hts : qTotScore df with
  | none => rw [hts] at h; simp at h
  | some ts =>
    cases htr : pyInt (qTotResp df) with
    | none => rw [hts, htr] at h; simp at h
    | some tr =>
      cases h1 : pyRoundInt (qS1w df) with
      | none => rw [hts, htr, h1] at h; simp at h
      | some w1 =>
        cases h2 : pyRoundInt (qS2w df) with
        | none => rw [hts, htr, h1, h2] at h; simp at h
        | some w2 =>
          cases h3 : pyRoundInt (qTotWeight df) with
          | none => rw [hts, htr, h1, h2, h3] at h; simp at h
          | some tw =>
            rw [hts, htr, h1, h2, h3] at h
            simp at h
            subst h
            exact ⟨ts, rfl, rfl, rfl, rfl, rfl, rfl, rfl, rfl⟩

theorem tRow_eq (p : String) (d : List SRow) (row : TRow)
    (h : tRow p d = some row) :
    ∃ ts, tTotScore d = some ts ∧
      pyInt (tTotResp d) = some row.total_responses ∧
      pyRoundInt (tS1w d) = some row.s1w_disp ∧
      pyRoundInt (tS2w d) = some row.s2w_disp ∧
      pyRoundInt (tTotWeight d) = some row.total_weight_disp ∧
      row.a1disp = pyRound2 (tA1 d) ∧ row.a2disp = pyRound2 (tA2 d) ∧
      row.total_score_disp = pyRound2 ts ∧ row.row_count = d.length := by
  unfold tRow at h
  cases hts : tTotScore d with
  | none => rw [hts] at h; simp at h
  | some ts =>
    cases htr : pyInt (tTotResp d) with
    | none => rw [hts, htr] at h; simp at h
    | some tr =>
      cases h1 : pyRoundInt (tS1w d) with
      | none => rw [hts, htr, h1] at h; simp at h
      | some w1 =>
        cases h2 : pyRoundInt (tS2w d) with
        | none => rw [hts, htr, h1, h2] at h; simp at h
        | some w2 =>
          cases h3 : pyRoundInt (tTotWeight d) with
          | none => rw [hts, htr, h1, h2, h3] at h; simp at h
          | some tw =>
            rw [hts, htr, h1, h2, h3] at h
            simp at h
            subst h
            exact ⟨ts, rfl, rfl, rfl, rfl, rfl, rfl, rfl, rfl, rfl⟩

/-! ### Lemmas on the token scanner, for claim C10 -/

theorem isDig_bounds {c : Char} (h : isDig c = true) :
    48 ≤ c.toNat ∧ c.toNat ≤ 57 := by
  simpa [isDig] using h

theorem isDig_ne_comma {c : Char} (h : isDig c = true) : c ≠ ',' := by
  rintro rfl
  exact absurd h (by decide)

theorem isDig_ne_dash {c : Char} (h : isDig c = true) : c ≠ '-' := by
  rintro rfl
  exact absurd h (by decide)

theorem isDig_ne_dot {c : Char} (h : isDig c = true) : c ≠ '.' := by
  rintro rfl
  exact absurd h (by decide)

theorem isDig_not_space {c : Char} (h : isDig c = true) : isPySpace c = false := by
  cases hs : isPySpace c
  · rfl
  · exfalso
    simp only [isPySpace, Bool.or_eq_true, decide_eq_true_eq] at hs
    rcases hs with ((((rfl | rfl) | rfl) | rfl) | rfl) | rfl <;> exact absurd h (by decide)

theorem dropWhile_eq_self_of (p : Char → Bool) (l : List Char)
    (h : ∀ c ∈ l, p c = false) : l.dropWhile p = l := by
  cases l with
  | nil => rfl
  | cons a t => simp [List.dropWhile_cons, h a (List.mem_cons_self a t)]

theorem pyStrip_eq_self (l : List Char) (h : ∀ c ∈ l, isPySpace c = false) :
    pyStrip l = l := by
  unfold pyStrip
  rw [dropWhile_eq_self_of _ _ h,
    dropWhile_eq_self_of _ _ (fun c hc => h c (List.mem_reverse.mp hc)),
    List.reverse_reverse]

theorem fracShape_head_not_dig (fs : List Char) (hfs : FracShape fs) :
    ∀ c, fs.head? = some c → isDig c = false := by
  rcases hfs with rfl | ⟨g, gs, rfl, _, _⟩
  · intro c hc
    simp at hc
  · intro c hc
    simp at hc
    subst hc
    decide

theorem takeUpTo_stop (n : ℕ) (fs : List Char)
    (hfs : ∀ c, fs.head? = some c → isDig c = false) :
    takeUpTo n isDig fs = ([], fs) := by
  cases fs with
  | nil => cases n <;> rfl
  | cons a t =>
    have ha : isDig a = false := hfs a rfl
    cases n with
    | zero => rfl
    | succ m => simp [takeUpTo, ha]

theorem takeUpTo_digits (ds : List Char) : ∀ (n : ℕ) (fs : List Char),
    ds.length ≤ n → (∀ c ∈ ds, isDig c = true) →
    (∀ c, fs.head? = some c → isDig c = false) →
    takeUpTo n isDig (ds ++ fs) = (ds, fs) := by
  induction ds with
  | nil =>
    intro n fs _ _ hfs
    simpa using takeUpTo_stop n fs hfs
  | cons d t ih =>
    intro n fs hlen hds hfs
    cases n with
    | zero => simp at hlen
    | succ m =>
      have hd : isDig d = true := hds d (by simp)
      have hrec := ih m fs (by simpa using hlen) (fun c hc => hds c (by simp [hc])) hfs
      simp [takeUpTo, hd, hrec]

theorem takeUpTo_three (d1 d2 d3 : Char) (rest : List Char)
    (h1 : isDig d1 = true) (h2 : isDig d2 = true) (h3 : isDig d3 = true) :
    takeUpTo 3 isDig (d1 :: d2 :: d3 :: rest) = ([d1, d2, d3], rest) := by
  cases rest <;> simp [takeUpTo, h1, h2, h3]

theorem commaGroups_stop (l : List Char) (h : ∀ c, l.head? = some c → c ≠ ',') :
    commaGroups l = ([], l) := by
  rcases l with _ | ⟨c, _ | ⟨a, _ | ⟨b, _ | ⟨d, rest⟩⟩⟩⟩
  · rfl
  · rfl
  · rfl
  · rfl
  · have hc : c ≠ ',' := h c rfl
    simp only [commaGroups]
    rw [if_neg (fun hand => hc hand.1)]

theorem fracPart_stop (l : List Char) (h : ∀ c, l.head? = some c → c ≠ '.') :
    fracPart l = ([], l) := by
  rcases l with _ | ⟨c, _ | ⟨d, rest⟩⟩
  · rfl
  · rfl
  · have hc : c ≠ '.' := h c rfl
    simp only [fracPart]
    rw [if_neg (fun hand => hc hand.1)]

theorem fracPart_all (g : Char) (gs : List Char) (hg : isDig g = true)
    (hgs : ∀ c ∈ gs, isDig c = true) :
    fracPart ('.' :: g :: gs) = ('.' :: g :: gs, []) := by
  have hdef : fracPart ('.' :: g :: gs) =
      if ('.' : Char) = '.' ∧ isDig g = true then
        ('.' :: g :: gs.takeWhile isDig, gs.dropWhile isDig)
      else ([], '.' :: g :: gs) := rfl
  rw [hdef, if_pos ⟨rfl, hg⟩, List.takeWhile_eq_self_iff.mpr hgs,
    List.dropWhile_eq_nil_iff.mpr (fun c hc => hgs c hc)]

theorem branch1core_eq (c : Char) (cs : List Char) (hc : isDig c = true) :
    branch1core (c :: cs) =
      some ((takeUpTo 3 isDig (c :: cs)).1 ++
          (commaGroups (takeUpTo 3 isDig (c :: cs)).2).1 ++
          (fracPart (commaGroups (takeUpTo 3 isDig (c :: cs)).2).2).1,
        (fracPart (commaGroups (takeUpTo 3 isDig (c :: cs)).2).2).2) := by
  simp [branch1core, hc]

theorem withSign_not_dash (core : List Char → Option (List Char × List Char))
    (c : Char) (cs : List Char) (hc : c ≠ '-') :
    withSign core (c :: cs) = core (c :: cs) := by
  simp only [withSign]
  rw [if_neg hc]

theorem matchAt_of_branch1 (l : List Char) (r : List Char × List Char)
    (h : withSign branch1core l = some r) : matchAt l = some r := by
  unfold matchAt
  rw [h]

theorem matchAt_long (d1 d2 d3 d4 : Char) (rest : List Char)
    (h1 : isDig d1 = true) (h2 : isDig d2 = true) (h3 : isDig d3 = true)
    (h4 : isDig d4 = true) :
    matchAt (d1 :: d2 :: d3 :: d4 :: rest) = some ([d1, d2, d3], d4 :: rest) := by
  have ht := takeUpTo_three d1 d2 d3 (d4 :: rest) h1 h2 h3
  have hcg : commaGroups (d4 :: rest) = ([], d4 :: rest) :=
    commaGroups_stop _ (by
      intro c hc
      simp at hc
      subst hc
      exact isDig_ne_comma h4)
  have hfp : fracPart (d4 :: rest) = ([], d4 :: rest) :=
    fracPart_stop _ (by
      intro c hc
      simp at hc
      subst hc
      exact isDig_ne_dot h4)
  have hb : branch1core (d1 :: d2 :: d3 :: d4 :: rest) =
      some ([d1, d2, d3], d4 :: rest) := by
    rw [branch1core_eq d1 _ h1]
    simp [ht, hcg, hfp]
  exact matchAt_of_branch1 _ _
    (by rw [withSign_not_dash _ _ _ (isDig_ne_dash h1)]; exact hb)

theorem matchAt_short (ds fs : List Char) (hne : ds ≠ []) (hlen : ds.length ≤ 3)
    (hds : ∀ c ∈ ds, isDig c = true) (hfs : FracShape fs) :
    matchAt (ds ++ fs) = some (ds ++ fs, []) := by
  obtain ⟨d, t, rfl⟩ := List.exists_cons_of_ne_nil hne
  have hd : isDig d = true := hds d (by simp)
  have hhead := fracShape_head_not_dig fs hfs
  have ht : takeUpTo 3 isDig (d :: (t ++ fs)) = (d :: t, fs) := by
    simpa [List.cons_append] using takeUpTo_digits (d :: t) 3 fs hlen hds hhead
  have hcg : commaGroups fs = ([], fs) := by
    rcases hfs with rfl | ⟨g, gs, rfl, hg, hgs⟩
    · rfl
    · exact commaGroups_stop _ (by intro c hc; simp at hc; subst hc; decide)
  have hfp : fracPart fs = (fs, []) := by
    rcases hfs with rfl | ⟨g, gs, rfl, hg, hgs⟩
    · rfl
    · exact fracPart_all g gs hg hgs
  have hb : branch1core (d :: (t ++ fs)) = some (d :: (t ++ fs), []) := by
    rw [branch1core_eq d (t ++ fs) hd]
    simp [ht, hcg, hfp]
  rw [List.cons_append]
  exact matchAt_of_branch1 _ _
    (by rw [withSign_not_dash _ _ _ (isDig_ne_dash hd)]; exact hb)

theorem findallAux_nil (n : ℕ) : findallAux n [] = [] := by
  cases n <;> rfl

theorem findallAux_cons_match (n : ℕ) (c : Char) (cs tok rest : List Char)
    (h : matchAt (c :: cs) = some (tok, rest)) :
    findallAux (n + 1) (c :: cs) = tok :: findallAux n rest := by
  simp [findallAux, h]

theorem findall_digits_getLast :
    ∀ (n : ℕ) (ds fs : List Char), (ds ++ fs).length ≤ n → ds ≠ [] →
      (∀ c ∈ ds, isDig c = true) → FracShape fs →
      ∃ t : List Char, t ≠ [] ∧ t.length ≤ 3 ∧ (∀ c ∈ t, isDig c = true) ∧
        (findallAux n (ds ++ fs)).getLast? = some (t ++ fs) := by
  intro n
  induction n with
  | zero =>
    intro ds fs hlen hne _ _
    exfalso
    have hpos : 0 < ds.length := List.length_pos.mpr hne
    rw [List.length_append] at hlen
    omega
  | succ m ih =>
    intro ds fs hlen hne hds hfs
    by_cases hs : ds.length ≤ 3
    · obtain ⟨d, t, rfl⟩ := List.exists_cons_of_ne_nil hne
      have hm := matchAt_short (d :: t) fs hne hs hds hfs
      refine ⟨d :: t, hne, hs, hds, ?_⟩
      rw [List.cons_append,
        findallAux_cons_match m d (t ++ fs) ((d :: t) ++ fs) []
          (by simpa [List.cons_append] using hm),
        findallAux_nil]
      simp
    · push_neg at hs
      obtain ⟨d1, r1, rfl⟩ := List.exists_cons_of_ne_nil hne
      rcases r1 with _ | ⟨d2, r2⟩
      · simp at hs
      rcases r2 with _ | ⟨d3, r3⟩
      · simp at hs
      rcases r3 with _ | ⟨d4, r4⟩
      · simp at hs
      have h1 : isDig d1 = true := hds _ (by simp)
      have h2 : isDig d2 = true := hds _ (by simp)
      have h3 : isDig d3 = true := hds _ (by simp)
      have h4 : isDig d4 = true := hds _ (by simp)
      have hstep := matchAt_long d1 d2 d3 d4 (r4 ++ fs) h1 h2 h3 h4
      have hlen' : ((d4 :: r4) ++ fs).length ≤ m := by
        simp [List.length_append] at hlen ⊢
        omega
      have hds' : ∀ c ∈ d4 :: r4, isDig c = true := by
        intro c hc
        apply hds
        simp at hc ⊢
        tauto
      obtain ⟨tk, htk1, htk2, htk3, htk4⟩ := ih (d4 :: r4) fs hlen' (by simp) hds' hfs
      refine ⟨tk, htk1, htk2, htk3, ?_⟩
      rw [show (d1 :: d2 :: d3 :: d4 :: r4) ++ fs
          = d1 :: (d2 :: d3 :: ((d4 :: r4) ++ fs)) by simp,
        findallAux_cons_match m d1 (d2 :: d3 :: ((d4 :: r4) ++ fs)) [d1, d2, d3]
          ((d4 :: r4) ++ fs) (by simpa [List.cons_append] using hstep)]
      cases hfa : findallAux m ((d4 :: r4) ++ fs) with
      | nil =>
        rw [hfa] at htk4
        simp at htk4
      | cons y ys =>
        rw [hfa] at htk4
        rw [List.getLast?_cons_cons]
        exact htk4

theorem dVal_le_9 {c : Char} (h : isDig c = true) : dVal c ≤ 9 := by
  obtain ⟨h1, h2⟩ := isDig_bounds h
  unfold dVal
  omega

theorem intValN_lt (l : List Char) (h : ∀ c ∈ l, isDig c = true) :
    intValN l < 10 ^ l.length := by
  induction l with
  | nil => simp [intValN]
  | cons c t ih =>
    have hd := dVal_le_9 (h c (by simp))
    have ht := ih (fun x hx => h x (by simp [hx]))
    have hmul : dVal c * 10 ^ t.length ≤ 9 * 10 ^ t.length :=
      Nat.mul_le_mul_right _ hd
    simp only [intValN, List.length_cons, pow_succ]
    omega

theorem le_intValN (d : Char) (t : List Char) (hd0 : dVal d ≠ 0) :
    10 ^ t.length ≤ intValN (d :: t) := by
  have h1 : 1 ≤ dVal d := Nat.one_le_iff_ne_zero.mpr hd0
  have h2 : 1 * 10 ^ t.length ≤ dVal d * 10 ^ t.length :=
    Nat.mul_le_mul_right _ h1
  simp only [intValN]
  omega

theorem thousand_lt_ovf : (1000 : ℚ) < ovfThreshold := by
  unfold ovfThreshold
  have ha : (1024 : ℕ) ≤ 2 ^ 970 := by
    calc (1024 : ℕ) = 2 ^ 10 := by norm_num
    _ ≤ 2 ^ 970 := Nat.pow_le_pow_right (by norm_num) (by norm_num)
  have hb : 2 * 2 ^ 970 ≤ (2 : ℕ) ^ 1024 := by
    calc 2 * 2 ^ 970 = 2 ^ 971 := (pow_succ' 2 970).symm
    _ ≤ 2 ^ 1024 := Nat.pow_le_pow_right (by norm_num) (by norm_num)
  have h1 : (1000 : ℕ) < 2 ^ 1024 - 2 ^ 970 := by omega
  calc (1000 : ℚ) = ((1000 : ℕ) : ℚ) := by norm_num
  _ < _ := by exact_mod_cast h1

theorem fracQ_nonneg (fs : List Char) : 0 ≤ fracQ fs := by
  unfold fracQ
  split
  · positivity
  · exact le_refl 0

theorem fracQ_lt_one (fs : List Char) (hfs : FracShape fs) : fracQ fs < 1 := by
  rcases hfs with rfl | ⟨g, gs, rfl, hg, hgs⟩
  · norm_num [fracQ]
  · have hdig : ∀ c ∈ g :: gs, isDig c = true := by
      intro c hc
      rcases List.mem_cons.mp hc with rfl | hc
      · exact hg
      · exact hgs c hc
    have hlt : intValN (g :: gs) < 10 ^ (g :: gs).length := intValN_lt _ hdig
    show (intValN (g :: gs) : ℚ) / ((10 ^ (g :: gs).length : ℕ) : ℚ) < 1
    rw [div_lt_one (by positivity)]
    exact_mod_cast hlt

theorem takeWhile_append_digits (t : List Char) : ∀ (fs : List Char),
    (∀ c ∈ t, isDig c = true) → (∀ c, fs.head? = some c → isDig c = false) →
    (t ++ fs).takeWhile isDig = t ∧ (t ++ fs).dropWhile isDig = fs := by
  induction t with
  | nil =>
    intro fs _ hfs
    simp only [List.nil_append]
    cases fs with
    | nil => simp
    | cons a l =>
      have ha := hfs a rfl
      simp [List.takeWhile_cons, List.dropWhile_cons, ha]
  | cons c t ih =>
    intro fs ht hfs
    have hc := ht c (by simp)
    obtain ⟨ih1, ih2⟩ := ih fs (fun x hx => ht x (by simp [hx])) hfs
    simp [List.takeWhile_cons, List.dropWhile_cons, hc, ih1, ih2]

theorem parseUnsigned_digits_frac (t fs : List Char)
    (ht : ∀ c ∈ t, isDig c = true) (hfs : FracShape fs) :
    parseUnsigned (t ++ fs) = (intValN t : ℚ) + fracQ fs := by
  obtain ⟨h1, h2⟩ :=
    takeWhile_append_digits t fs ht (fracShape_head_not_dig fs hfs)
  unfold parseUnsigned
  rw [h1, h2]
  rcases hfs with rfl | ⟨g, gs, rfl, hg, hgs⟩
  · simp [fracQ]
  · simp [fracQ]

theorem parseTok_digits_frac (t fs : List Char) (hne : t ≠ [])
    (ht : ∀ c ∈ t, isDig c = true) (hfs : FracShape fs) :
    parseTok (t ++ fs) = (intValN t : ℚ) + fracQ fs := by
  obtain ⟨d, t', rfl⟩ := List.exists_cons_of_ne_nil hne
  have hd := ht d (by simp)
  rw [List.cons_append]
  simp only [parseTok]
  rw [if_neg (isDig_ne_dash hd), ← List.cons_append]
  exact parseUnsigned_digits_frac (d :: t') fs ht hfs

theorem extractStr_digit_string (d : Char) (ds fs : List Char)
    (hd : isDig d = true) (hds : ∀ c ∈ ds, isDig c = true)
    (hfs : FracShape fs) :
    ∃ t : List Char, t ≠ [] ∧ t.length ≤ 3 ∧ (∀ c ∈ t, isDig c = true) ∧
      extractStr ⟨d :: ds ++ fs⟩ = some (floatLit ((intValN t : ℚ) + fracQ fs)) := by
  have hdig : ∀ c ∈ d :: ds, isDig c = true := by
    intro c hc
    rcases List.mem_cons.mp hc with rfl | hc
    · exact hd
    · exact hds c hc
  have hnospace : ∀ c ∈ d :: ds ++ fs, isPySpace c = false := by
    intro c hc
    rcases List.mem_cons.mp hc with rfl | hc
    · exact isDig_not_space hd
    · rcases List.mem_append.mp hc with hc | hc
      · exact isDig_not_space (hds c hc)
      · rcases hfs with rfl | ⟨g, gs, rfl, hg, hgs⟩
        · simp at hc
        · rcases List.mem_cons.mp hc with rfl | hc
          · decide
          · rcases List.mem_cons.mp hc with rfl | hc
            · exact isDig_not_space hg
            · exact isDig_not_space (hgs c hc)
  obtain ⟨t, ht1, ht2, ht3, ht4⟩ :=
    findall_digits_getLast (d :: ds ++ fs).length (d :: ds) fs
      (by simp) (by simp) hdig hfs
  have hnocomma : ∀ c ∈ t ++ fs, c ≠ ',' := by
    intro c hc
    rcases List.mem_append.mp hc with hc | hc
    · exact isDig_ne_comma (ht3 c hc)
    · rcases hfs with rfl | ⟨g, gs, rfl, hg, hgs⟩
      · simp at hc
      · rcases List.mem_cons.mp hc with rfl | hc
        · decide
        · rcases List.mem_cons.mp hc with rfl | hc
          · exact isDig_ne_comma hg
          · exact isDig_ne_comma (hgs c hc)
  refine ⟨t, ht1, ht2, ht3, ?_⟩
  have hstep : extractStr ⟨d :: ds ++ fs⟩ = some (pyFloatOfTok (t ++ fs)) := by
    unfold extractStr findall
    rw [show (⟨d :: ds ++ fs⟩ : String).data = d :: ds ++ fs from rfl,
      pyStrip_eq_self _ hnospace]
    show (match (findallAux (d :: ds ++ fs).length (d :: ds ++ fs)).getLast? with
      | none => none
      | some tok => some (pyFloatOfTok tok)) = some (pyFloatOfTok (t ++ fs))
    rw [ht4]
  rw [hstep]
  unfold pyFloatOfTok
  rw [List.filter_eq_self.mpr (by
    intro a ha
    simpa using hnocomma a ha)]
  rw [parseTok_digits_frac t fs ht1 ht3 hfs]

/-! ### The claims -/

/-- C1 (counterexample): on the two-row scenario input with the score_2
fields absent in every row, the claim's expectations fail: the test1.py
variant raises (round of the propagated NaN), and the reckoner variant
returns with a2 equal to the number 0.0 rather than undefined/absent. -/
theorem c1_counterexample :
    calculate_project_metrics scenarioRowsT = .exn ∧
    excel_style_calculations scenarioRowsQ = .ok (some scenarioQuantRes) ∧
    scenarioQuantRes.a2disp = .finite 0 ∧ scenarioQuantRes.a2disp ≠ .nan := by
  with_unfolding_all decide

/-- C1 (amended): on the two-row scenario input the reckoner variant
returns, without raising, s1r = 30, a1 = 5.0, s2r = 0, a2 = 0.0 (the
score_2 columns, absent from the schema, are filled with the number 0 by
clean_excel, so a2 is a mean of zeros rather than undefined),
score1_weighted = 150, total_weight = 150, total_responses = 30 and
total_score = 5.0; the test1.py variant raises a ValueError on the same
input because its NA fill makes a2 NaN and round(NaN * 0) fails. -/
theorem c1_amended :
    qS1r scenarioRowsQ = .finite 30 ∧
    qA1 scenarioRowsQ = .finite 5 ∧
    qS2r scenarioRowsQ = .finite 0 ∧
    qA2 scenarioRowsQ = .finite 0 ∧
    qS1w scenarioRowsQ = .finite 150 ∧
    qTotWeight scenarioRowsQ = .finite 150 ∧
    qTotResp scenarioRowsQ = .finite 30 ∧
    qTotScore scenarioRowsQ = some (.finite 5) ∧
    excel_style_calculations scenarioRowsQ = .ok (some scenarioQuantRes) ∧
    calculate_project_metrics scenarioRowsT = .exn := by
  with_unfolding_all decide

/-- C2 (counterexample): for a table whose schema lacks the score_2
columns, no failure is raised and no missing-field condition is signalled;
the derived columns are silently substituted (constant 0 in the reckoner
variant, constant NA in test1.py) and aggregation proceeds to a normal
result. -/
theorem c2_counterexample :
    lookupCol missingColTable "score_2_response" = none ∧
    lookupCol missingColTable "score_2_average" = none ∧
    numColQ missingColTable "score_2_response" = [some (.finite 0)] ∧
    numColT missingColTable "score_2_response" = [none] ∧
    excel_style_calculations (buildRowsWith numColQ missingColTable) =
      .ok (some ⟨10, .finite 4, .finite 0, 40, 0, 40, .finite 4⟩) := by
  with_unfolding_all decide

/-- C2 (amended): when a required numeric column is absent from the input
schema, the pipeline does not fail fast: clean_excel silently substitutes
the whole derived column, with the constant 0 in quant_scoring_reckoner.py
and with the constant missing marker in test1.py. -/
theorem c2_amended (t : Table) (c : String) (_hm : c ∈ requiredCols)
    (h : lookupCol t c = none) :
    numColQ t c = List.replicate (nrows t) (some (.finite 0)) ∧
    numColT t c = List.replicate (nrows t) none := by
  unfold numColQ numColT
  rw [h]
  exact ⟨rfl, rfl⟩

/-- Witness for c2_amended at the concrete table missing its
score_2_response column. -/
theorem c2_amended_witness :
    numColQ missingColTable "score_2_response" =
      List.replicate (nrows missingColTable) (some (.finite 0)) ∧
    numColT missingColTable "score_2_response" =
      List.replicate (nrows missingColTable) none :=
  c2_amended missingColTable "score_2_response" (by with_unfolding_all decide)
    (by with_unfolding_all decide)

/-- C3 (counterexample): extract is not always absence-or-finite: on a
310-digit comma-grouped cell, whose single token has the value 10^309,
Python's float() overflows and extract returns positive infinity. -/
theorem c3_counterexample :
    extract (.strCell ⟨hugeChars⟩) = some .inf ∧
    (∀ q : ℚ, some (PyFloat.inf) ≠ some (.finite q)) ∧
    some (PyFloat.inf) ≠ (none : Option PyFloat) := by
  refine ⟨by with_unfolding_all decide, fun q h => ?_, by simp⟩
  simp at h

/-- C3 (amended): extract never raises and never yields NaN; its result is
either absence or a float, which is finite (with magnitude below the IEEE
double overflow threshold) except when the parsed token's magnitude
reaches that threshold, in which case it is an infinity. -/
theorem c3_amended (c : RawCell) :
    extract c ≠ some .nan ∧
    (extract c = none ∨ (∃ q, extract c = some (.finite q) ∧ |q| < ovfThreshold) ∨
      extract c = some .inf ∨ extract c = some .ninf) := by
  rcases extract_cases c with h | ⟨tok, h⟩
  · exact ⟨by simp [h], Or.inl h⟩
  · rcases pyFloatOfTok_cases tok with hf | hf | ⟨q, hf, hb⟩
    · rw [hf] at h
      exact ⟨by simp [h], Or.inr (Or.inr (Or.inl h))⟩
    · rw [hf] at h
      exact ⟨by simp [h], Or.inr (Or.inr (Or.inr h))⟩
    · rw [hf] at h
      exact ⟨by simp [h], Or.inr (Or.inl ⟨q, h, hb⟩)⟩

/-- C4 (counterexample): on an empty row sequence neither variant returns
an AggregateResult with zero totals: the reckoner variant returns None and
test1.py returns an empty result table. -/
theorem c4_counterexample :
    excel_style_calculations ([] : List SRow) = .ok none ∧
    calculate_project_metrics ([] : List SRow) = .ok [] ∧
    ¬ ∃ r : QuantResult, excel_style_calculations ([] : List SRow) = .ok (some r) := by
  refine ⟨rfl, rfl, ?_⟩
  rintro ⟨r, hr⟩
  rw [show excel_style_calculations ([] : List SRow) = .ok none from rfl] at hr
  simp at hr

/-- C4 (amended): on an empty row sequence both aggregators return without
raising, but with an empty outcome (None in the reckoner variant, an empty
result table in test1.py) rather than an AggregateResult whose
total_responses and total_score are 0. -/
theorem c4_amended :
    excel_style_calculations ([] : List SRow) = .ok none ∧
    calculate_project_metrics ([] : List SRow) = .ok [] :=
  ⟨rfl, rfl⟩

/-- C5: the extractor takes the last matching numeric token of the cell
text: extract "1,234" is 1234.0, extract "abc" is absence, extract of a
missing cell is absence, extract "val: 5, final: -2.5" is -2.5, and
extract of the non-string numeric cell 0 is 0.0, distinguishable from
absence. -/
theorem c5_extract_examples :
    extract (.strCell "1,234") = some (.finite 1234) ∧
    extract (.strCell "abc") = none ∧
    extract .na = none ∧
    extract (.strCell "val: 5, final: -2.5") = some (.finite (-(5/2))) ∧
    extract (.intCell 0) = some (.finite 0) ∧
    some (PyFloat.finite 0) ≠ (none : Option PyFloat) := by
  with_unfolding_all decide

/-- C6: in both variants, total_score equals total_weight divided by
total_responses when total_responses is nonzero and equals 0 when it is
zero, and the guarded computation never raises a division error (it always
produces a value, never the exception outcome none). -/
theorem c6_total_score_guard (d : List SRow) :
    tTotScore d =
      some (if tTotResp d = .finite 0 then .finite 0
        else pyDivVal (tTotWeight d) (tTotResp d)) ∧
    qTotScore d =
      some (if qTotResp d = .finite 0 then .finite 0
        else pyDivVal (qTotWeight d) (qTotResp d)) :=
  ⟨guardedDiv_eq (tTotWeight d) (tTotResp d), guardedDiv_eq (qTotWeight d) (qTotResp d)⟩

/-- C7: rounding is presentation-only: every display field of a returned
result is the rounding (2 decimal digits for the means and the total
score, nearest integer for the weighted sums and total weight) of the
corresponding unrounded intermediate, and the intermediates are computed
from each other unrounded (total_weight from the unrounded weighted sums,
total_score from the unrounded total_weight and total_responses). -/
theorem c7_rounding :
    (∀ (df : List SRow) (r : QuantResult),
      excel_style_calculations df = .ok (some r) → QuantRoundingSpec df r) ∧
    (∀ (p : String) (d : List SRow) (row : TRow),
      tRow p d = some row → TRoundingSpec d row) := by
  constructor
  · intro df r h
    obtain ⟨ts, hts, htr, h1, h2, h3, ha1, ha2, hsc⟩ := qBuild_eq df r (excel_ok_some df r h)
    exact ⟨ha1, ha2, h1, h2, h3, ⟨ts, hts, hsc⟩, rfl, rfl, rfl, rfl, htr⟩
  · intro p d row h
    obtain ⟨ts, hts, htr, h1, h2, h3, ha1, ha2, hsc, hrc⟩ := tRow_eq p d row h
    exact ⟨ha1, ha2, h1, h2, h3, ⟨ts, hts, hsc⟩, rfl, rfl, rfl, rfl, htr, hrc⟩

/-- Witness for c7_rounding: the reckoner part at the scenario rows and
their computed result, the test1.py part at a one-row group with all four
fields present. -/
theorem c7_rounding_witness :
    QuantRoundingSpec scenarioRowsQ scenarioQuantRes ∧
    TRoundingSpec [fullRow] fullRowT :=
  ⟨c7_rounding.1 scenarioRowsQ scenarioQuantRes (by with_unfolding_all decide),
   c7_rounding.2 "A" [fullRow] fullRowT (by with_unfolding_all decide)⟩

/-- C8: aggregation does not mutate its input: the source performs no
in-place operation on the caller's rows (filtering, copy, fillna and
dropna all build new objects), so the state-threaded calls return the
input rows unchanged, and the result is a function of those rows alone. -/
theorem c8_no_input_mutation (df : List SRow) :
    (excel_style_calculations_state df).1 = df ∧
    (calculate_project_metrics_state df).1 = df ∧
    (excel_style_calculations_state df).2 = excel_style_calculations df ∧
    (calculate_project_metrics_state df).2 = calculate_project_metrics df :=
  ⟨rfl, rfl, rfl, rfl⟩

/-- C10 (counterexample): the claim fails for digit strings with leading
zeros: "00001" consists solely of more than three decimal digits, yet
extract returns 1.0, exactly the number the whole string denotes (its last
token "01" is a proper suffix, but has the same value as the full
string). -/
theorem c10_counterexample :
    extract (.strCell "00001") = some (.finite 1) ∧
    decVal ['0', '0', '0', '0', '1'] [] = 1 := by
  with_unfolding_all decide

/-- C10 (amended): for every string cell of more than three decimal digits
without thousands-separator commas (optionally followed by a decimal point
and fractional digits) whose leading digit is nonzero, the ordered token
grammar splits the digits, the last token is a short proper suffix, and
extract returns a number strictly smaller than the number the whole string
denotes; in particular extract "1234.5" = 4.5 and extract "12345" =
45.0. -/
theorem c10_amended :
    (∀ (d : Char) (ds fs : List Char), isDig d = true →
      (∀ c ∈ ds, isDig c = true) → 3 ≤ ds.length → FracShape fs →
      dVal d ≠ 0 →
      ∃ q : ℚ, extractStr ⟨d :: ds ++ fs⟩ = some (.finite q) ∧
        q < decVal (d :: ds) fs) ∧
    extract (.strCell "1234.5") = some (.finite (9/2)) ∧
    extract (.strCell "12345") = some (.finite 45) := by
  refine ⟨?_, by with_unfolding_all decide, by with_unfolding_all decide⟩
  intro d ds fs hd hds h3 hfs hd0
  obtain ⟨t, htne, htlen, htdig, hex⟩ := extractStr_digit_string d ds fs hd hds hfs
  have htv : intValN t < 1000 := by
    have h1 : intValN t < 10 ^ t.length := intValN_lt t htdig
    have h2 : (10 : ℕ) ^ t.length ≤ 10 ^ 3 :=
      Nat.pow_le_pow_right (by norm_num) htlen
    omega
  have htvq : (intValN t : ℚ) < 1000 := by exact_mod_cast htv
  have hfq0 : 0 ≤ fracQ fs := fracQ_nonneg fs
  have hfq1 : fracQ fs < 1 := fracQ_lt_one fs hfs
  have htvq' : (intValN t : ℚ) ≤ 999 := by
    exact_mod_cast (show intValN t ≤ 999 by omega)
  have hsmall : (intValN t : ℚ) + fracQ fs < ovfThreshold := by
    have := thousand_lt_ovf
    linarith
  have hnn : (0 : ℚ) ≤ (intValN t : ℚ) + fracQ fs := by positivity
  have hfl : floatLit ((intValN t : ℚ) + fracQ fs) =
      .finite ((intValN t : ℚ) + fracQ fs) := by
    unfold floatLit
    rw [if_neg (not_le.mpr hsmall),
      if_neg (not_le.mpr (by have := thousand_lt_ovf; linarith))]
  have hlt : (intValN t : ℚ) + fracQ fs < decVal (d :: ds) fs := by
    unfold decVal
    have hb1 : intValN t < intValN (d :: ds) := by
      have h2 : (10 : ℕ) ^ 3 ≤ 10 ^ ds.length :=
        Nat.pow_le_pow_right (by norm_num) h3
      have h4 : 10 ^ ds.length ≤ intValN (d :: ds) := le_intValN d ds hd0
      omega
    have hb2 : (intValN t : ℚ) < (intValN (d :: ds) : ℚ) := by exact_mod_cast hb1
    linarith
  exact ⟨(intValN t : ℚ) + fracQ fs, by rw [hex, hfl], hlt⟩

/-- Witness for the universal part of c10_amended at the four-digit string
"1234": extract returns some finite number strictly below 1234. -/
theorem c10_amended_witness :
    ∃ q : ℚ, extractStr ⟨'1' :: ['2', '3', '4'] ++ []⟩ = some (.finite q) ∧
      q < decVal ('1' :: ['2', '3', '4']) [] :=
  c10_amended.1 '1' ['2', '3', '4'] [] (by decide)
    (by intro c hc; fin_cases hc <;> decide) (by decide) (Or.inl rfl) (by decide)

/-- C9: aggregation is deterministic: a second call on the rows returned
unchanged by a first call yields a result structurally identical to the
first one, for both variants. -/
theorem c9_deterministic (df : List SRow) :
    (calculate_project_metrics_state ((calculate_project_metrics_state df).1)).2 =
      (calculate_project_metrics_state df).2 ∧
    (excel_style_calculations_state ((excel_style_calculations_state df).1)).2 =
      (excel_style_calculations_state df).2 :=
  ⟨rfl, rfl⟩

end CsrKpi
